import Mathlib

/-!
Shallow embedding of the IMDb-Filmstatistik core logic (src/App.tsx and
src/components/MovieChart.tsx MovieList) over lists of characters, together
with theorems settling the specification claims.

Strings are modelled as `List Char`.  JavaScript-specific semantics
(`String.prototype.trim`, `parseInt(_, 10)`, truthiness of `||` and `&&`,
`Array.prototype.sort` with a numeric comparator whose `NaN` results count
as zero per the ECMAScript SortCompare clause) are embedded explicitly.
`toLowerCase` is modelled on the ASCII range (characters outside `A`-`Z`
are left unchanged), which is exact for every comparison the program makes
against ASCII literals.
-/

/- ### JS string helpers -/

/-- Character class removed by `String.prototype.trim` (space, tab, LF, CR,
VT, FF, NBSP, BOM; exotic Unicode space separators are omitted, none of the
modelled logic distinguishes them). -/
def jsWhitespace (c : Char) : Bool :=
  c == ' ' || c == '\t' || c == '\n' || c == '\r' ||
  c == Char.ofNat 11 || c == Char.ofNat 12 || c == Char.ofNat 160 ||
  c == Char.ofNat 65279

def trimLeft (s : List Char) : List Char := s.dropWhile jsWhitespace

def trimRight (s : List Char) : List Char := (s.reverse.dropWhile jsWhitespace).reverse

/-- `s.trim()` of JavaScript. -/
def jsTrim (s : List Char) : List Char := trimRight (trimLeft s)

/-- `if (content.charCodeAt(0) === 0xFEFF) content = content.substring(1)`
(App.tsx lines 14-16). -/
def stripBOM (s : List Char) : List Char :=
  match s with
  | c :: rest => if c = Char.ofNat 65279 then rest else s
  | [] => []

/-- `content.split(/\r?\n/)` (App.tsx line 18): a line break is `\r\n` or a
lone `\n`; a lone `\r` stays inside the line. -/
def splitLinesAux : List Char → List Char → List (List Char)
  | [], acc => [acc.reverse]
  | '\r' :: '\n' :: rest, acc => acc.reverse :: splitLinesAux rest []
  | '\n' :: rest, acc => acc.reverse :: splitLinesAux rest []
  | c :: rest, acc => splitLinesAux rest (c :: acc)

def splitLines (s : List Char) : List (List Char) := splitLinesAux s []

def isBlankLine (l : List Char) : Bool := (jsTrim l).isEmpty

/-- The non-blank lines of the (trimmed, BOM-stripped) upload text
(App.tsx lines 12-18). -/
def linesOf (text : List Char) : List (List Char) :=
  (splitLines (stripBOM (jsTrim text))).filter (fun l => !(isBlankLine l))

/-- Plain single-character split, `headerLine.split(',')` (App.tsx line 24). -/
def splitCharAux (d : Char) : List Char → List Char → List (List Char)
  | [], acc => [acc.reverse]
  | c :: rest, acc =>
    if c = d then acc.reverse :: splitCharAux d rest []
    else splitCharAux d rest (c :: acc)

def splitChar (d : Char) (s : List Char) : List (List Char) := splitCharAux d s []

/-- `headerLine.split(',').length >= headerLine.split(';').length ? ',' : ';'`
(App.tsx line 24). -/
def detectDelimiter (headerLine : List Char) : Char :=
  if (splitChar ',' headerLine).length ≥ (splitChar ';' headerLine).length then ','
  else ';'

def quoteCnt (s : List Char) : Nat := s.countP (fun c => c == '"')

/-- `line.split(regex)` with
`regex = new RegExp(delimiter + "(?=(?:(?:[^\x22]*\x22){2})*[^\x22]*$)")`
(App.tsx lines 25, 27, 34): an occurrence of the delimiter is a split point
exactly when the rest of the line after it contains an even number of
double-quote characters (the lookahead matches precisely the strings with an
even quote count). -/
def splitQAAux (d : Char) : List Char → List Char → List (List Char)
  | [], acc => [acc.reverse]
  | c :: rest, acc =>
    if c = d ∧ quoteCnt rest % 2 = 0 then acc.reverse :: splitQAAux d rest []
    else splitQAAux d rest (c :: acc)

def splitQA (d : Char) (s : List Char) : List (List Char) := splitQAAux d s []

/-- One pass of `replace(/^"|"$/g, '')`: the global regex removes a leading
double quote if present and then a trailing double quote if present,
independently of each other. -/
def dropLeadingQuote (t : List Char) : List Char :=
  match t with
  | c :: rest => if c = '"' then rest else t
  | [] => []

def dropTrailingQuote (t : List Char) : List Char :=
  if t.getLast? = some '"' then t.dropLast else t

def stripQuotes (t : List Char) : List Char := dropTrailingQuote (dropLeadingQuote t)

/-- `h.trim().replace(/^"|"$/g, '')` (App.tsx lines 27 and 44-46). -/
def cleanField (f : List Char) : List Char := stripQuotes (jsTrim f)

/- ### Records and the parser (App.tsx lines 11-51) -/

/-- A parsed row: the header keys zipped with the row's cleaned fields.
JavaScript object semantics (a later duplicate key overwrites an earlier
one) are recovered by `getField`, which returns the last binding. -/
abbrev Record := List (List Char × List Char)

def headerOf (headerLine : List Char) : List (List Char) :=
  (splitQA (detectDelimiter headerLine) headerLine).map cleanField

/-- One data line: split on the delimiter; if the field count differs from
the header's the line yields no record (App.tsx lines 36-39), otherwise the
record zips header keys with cleaned values (lines 41-48; the `currentline[j]
? ... : ''` guard coincides with `cleanField` on the empty string). -/
def mkRecord (header : List (List Char)) (delim : Char) (line : List Char) :
    Option Record :=
  if (splitQA delim line).length = header.length then
    some (header.zip ((splitQA delim line).map cleanField))
  else none

/-- `parseCSV` (App.tsx lines 11-51). -/
def parseCSV (text : List Char) : List Record :=
  match linesOf text with
  | [] => []
  | [_] => []
  | headerLine :: dataLines =>
    dataLines.filterMap (mkRecord (headerOf headerLine) (detectDelimiter headerLine))

/-- `obj[key]` of a parsed record: last binding wins, `none` models
`undefined`. -/
def getField (r : Record) (k : List Char) : Option (List Char) :=
  (r.reverse.find? (fun p => p.1 == k)).map Prod.snd

def fieldD (r : Record) (k : List Char) : List Char := (getField r k).getD []

def keysOfR (r : Record) : List (List Char) := r.map Prod.fst

/- ### JS numbers and case folding -/

def toLowerCh (c : Char) : Char :=
  if 'A' ≤ c ∧ c ≤ 'Z' then Char.ofNat (c.toNat + 32) else c

def toLowerL (s : List Char) : List Char := s.map toLowerCh

def digitsToNat (ds : List Char) : Nat :=
  ds.foldl (fun n c => 10 * n + (c.toNat - 48)) 0

def leadingNat (u : List Char) : Option Nat :=
  let ds := u.takeWhile Char.isDigit
  if ds.isEmpty then none else some (digitsToNat ds)

/-- `parseInt(s, 10)`: skip leading whitespace, optional sign, longest
digit run; `none` models `NaN`. -/
def jsParseInt (s : List Char) : Option Int :=
  let t := s.dropWhile jsWhitespace
  match t with
  | c :: rest =>
    if c = '-' then (leadingNat rest).map (fun n => -(n : Int))
    else if c = '+' then (leadingNat rest).map (fun n => (n : Int))
    else (leadingNat (c :: rest)).map (fun n => (n : Int))
  | [] => none

/- ### Qualifying-movie filter (App.tsx lines 66-72) -/

/-- JS `a || b` on a string-or-undefined value. -/
def jsOrStr (a b : Option (List Char)) : Option (List Char) :=
  match a with
  | some v => if v.isEmpty then b else some v
  | none => b

/-- `titleType?.toLowerCase() === 'movie' && yearStr` with
`titleType = entry['Title Type'] || entry['TitleType']`. -/
def jsQualifies (e : Record) : Bool :=
  (match jsOrStr (getField e ("Title Type".toList)) (getField e ("TitleType".toList)) with
   | some t => toLowerL t == ("movie".toList)
   | none => false)
  && (match getField e ("Year".toList) with
      | some y => !y.isEmpty
      | none => false)

def filterAndProcessMovies (data : List Record) : List Record :=
  data.filter jsQualifies

/-- Spec-side rendering of C3's predicate: title-type field read from
header spelling `Title Type` or, failing that, `TitleType`,
case-insensitively equal to `movie`, and a non-empty `Year`. -/
def specQualifies (e : Record) : Bool :=
  (toLowerL (if (fieldD e ("Title Type".toList)).isEmpty
             then fieldD e ("TitleType".toList)
             else fieldD e ("Title Type".toList)) == ("movie".toList))
  && !(fieldD e ("Year".toList)).isEmpty

/- ### Year aggregation (App.tsx lines 74-86) -/

/-- `parseInt(movie.Year, 10)` gated by `!isNaN(year) && year > 1800 && year < 2100`. -/
def chartYear (m : Record) : Option Int :=
  match jsParseInt (fieldD m ("Year".toList)) with
  | some y => if 1800 < y ∧ y < 2100 then some y else none
  | none => none

/-- `yearCounts[year] = (yearCounts[year] || 0) + 1` on an association list. -/
def bump : List (Int × Nat) → Int → List (Int × Nat)
  | [], y => [(y, 1)]
  | (k, c) :: rest, y =>
    if k = y then (k, c + 1) :: rest else (k, c) :: bump rest y

def chartStep (acc : List (Int × Nat)) (m : Record) : List (Int × Nat) :=
  match chartYear m with
  | some y => bump acc y
  | none => acc

def yearCountsList (movies : List Record) : List (Int × Nat) :=
  movies.foldl chartStep []

def insertPair (p : Int × Nat) : List (Int × Nat) → List (Int × Nat)
  | [] => [p]
  | q :: rest => if p.1 ≤ q.1 then p :: q :: rest else q :: insertPair p rest

/-- `.sort((a, b) => parseInt(a.year) - parseInt(b.year))`: stable sort
ascending by year key (keys are pairwise distinct, so any correct sort
produces the same list). -/
def sortByKey (l : List (Int × Nat)) : List (Int × Nat) := l.foldr insertPair []

def chartPairs (movies : List Record) : List (Int × Nat) :=
  sortByKey (yearCountsList movies)

def digitCh (n : Nat) : Char := Char.ofNat (48 + n)

def natReprAux : Nat → Nat → List Char → List Char
  | 0, _, acc => acc
  | fuel + 1, n, acc =>
    if n < 10 then digitCh n :: acc
    else natReprAux fuel (n / 10) (digitCh (n % 10) :: acc)

def natRepr (n : Nat) : List Char := natReprAux (n + 1) n []

/-- `String(n)` for the non-negative year keys that survive the range check. -/
def intRepr (y : Int) : List Char := natRepr y.toNat

/-- `createChartData` (App.tsx lines 74-86); a chart point is the year as a
string paired with its count. -/
def createChartData (movies : List Record) : List (List Char × Nat) :=
  (chartPairs movies).map (fun p => (intRepr p.1, p.2))

def sumSnd (l : List (Int × Nat)) : Nat := (l.map Prod.snd).sum

def countOcc (y : Int) (l : List Int) : Nat := l.countP (fun z => z == y)

/- ### Free-text search (App.tsx lines 168-182) -/

def startsWithL : List Char → List Char → Bool
  | _, [] => true
  | [], _ :: _ => false
  | c :: cs, d :: ds => c == d && startsWithL cs ds

/-- `hay.includes(needle)`. -/
def containsSub : List Char → List Char → Bool
  | [], needle => needle.isEmpty
  | c :: rest, needle => startsWithL (c :: rest) needle || containsSub rest needle

def titleMatchB (q : List Char) (m : Record) : Bool :=
  containsSub (toLowerL (fieldD m ("Title".toList))) (toLowerL q)

def ratingIntOf (m : Record) : Option Int :=
  jsParseInt (fieldD m ("Your Rating".toList))

def ratingD (m : Record) : Int := (ratingIntOf m).getD 0

/-- The comparator `(a, b) => parseInt(b['Your Rating']) - parseInt(a['Your
Rating'])`; a `NaN` result counts as `+0` per ECMAScript SortCompare. -/
def cmpRating (a b : Record) : Int :=
  match ratingIntOf a, ratingIntOf b with
  | some ra, some rb => rb - ra
  | _, _ => 0

def ratLe (a b : Record) : Bool := decide (cmpRating a b ≤ 0)

def insertRat (x : Record) : List Record → List Record
  | [] => [x]
  | y :: ys => if ratLe x y then x :: y :: ys else y :: insertRat x ys

/-- Stable sort by the rating comparator (modern-engine `Array.sort` is
stable). -/
def sortRatDesc (l : List Record) : List Record := l.foldr insertRat []

/-- `handleSearchChange` result state (App.tsx lines 168-182): empty result
on a whitespace-only query, otherwise filter by case-insensitive title
substring then sort by rating descending. -/
def searchResults (allMovies : List Record) (value : List Char) : List Record :=
  if (jsTrim value).isEmpty then []
  else sortRatDesc (allMovies.filter (titleMatchB value))

/- ### Required-column validation (App.tsx lines 120-129) -/

def REQUIRED_COLUMNS : List (List Char) :=
  [("Const".toList), ("Title".toList), ("Year".toList),
   ("Your Rating".toList), ("URL".toList)]

def hasKey (r : Record) (k : List Char) : Bool := decide (k ∈ keysOfR r)

def missingColumns (r : Record) : List (List Char) :=
  REQUIRED_COLUMNS.filter (fun c => !(hasKey r c))

def hasTitleTypeKey (r : Record) : Bool :=
  hasKey r ("Title Type".toList) || hasKey r ("TitleType".toList)

/-- The rejection of `handleFileSelect` (App.tsx lines 120-129): `some`
carries the list of names joined into the error message, `none` means the
upload passes the column check. -/
def validationError (r : Record) : Option (List (List Char)) :=
  let missing := missingColumns r
  if missing.isEmpty && hasTitleTypeKey r then none
  else some (missing ++ (if hasTitleTypeKey r then [] else [("Title Type".toList)]))

/- ### Faceted main-list filter (src/components/MovieChart.tsx, MovieList) -/

/-- The fixed genre-name localization table `genreTranslations`. -/
def genreTable : List (List Char × List Char) :=
  [(("Action".toList), ("Action".toList)),
   (("Adventure".toList), ("Äventyr".toList)),
   (("Animation".toList), ("Animerat".toList)),
   (("Biography".toList), ("Biografi".toList)),
   (("Comedy".toList), ("Komedi".toList)),
   (("Crime".toList), ("Kriminal".toList)),
   (("Documentary".toList), ("Dokumentär".toList)),
   (("Drama".toList), ("Drama".toList)),
   (("Family".toList), ("Familj".toList)),
   (("Fantasy".toList), ("Fantasy".toList)),
   (("Film-Noir".toList), ("Film-Noir".toList)),
   (("History".toList), ("Historia".toList)),
   (("Horror".toList), ("Skräck".toList)),
   (("Music".toList), ("Musik".toList)),
   (("Musical".toList), ("Musikal".toList)),
   (("Mystery".toList), ("Mysterium".toList)),
   (("Romance".toList), ("Romantik".toList)),
   (("Sci-Fi".toList), ("Sci-Fi".toList)),
   (("Short".toList), ("Kortfilm".toList)),
   (("Sport".toList), ("Sport".toList)),
   (("Thriller".toList), ("Thriller".toList)),
   (("War".toList), ("Krig".toList)),
   (("Western".toList), ("Västern".toList))]

/-- `genreTranslations[g] || g`. -/
def translateGenre (g : List Char) : List Char :=
  match genreTable.find? (fun p => p.1 == g) with
  | some p => if p.2.isEmpty then g else p.2
  | none => g

/-- `s.split(', ')`: split on the exact two-character separator. -/
def splitCommaSpaceAux : List Char → List Char → List (List Char)
  | [], acc => [acc.reverse]
  | ',' :: ' ' :: rest, acc => acc.reverse :: splitCommaSpaceAux rest []
  | c :: rest, acc => splitCommaSpaceAux rest (c :: acc)

def splitCommaSpace (s : List Char) : List (List Char) := splitCommaSpaceAux s []

/-- `movie.Genres?.split(', ').map(g => g.trim()).map(g =>
genreTranslations[g] || g) || []` (MovieChart.tsx MovieList, genre filter). -/
def genresOf (r : Record) : List (List Char) :=
  match getField r ("Genres".toList) with
  | some g => ((splitCommaSpace g).map jsTrim).map translateGenre
  | none => []

/-- The MovieList filter state: selected genre and rating sets (modelled as
lists), the raw year-range input strings, the director search string, and
the `hasGenres` / `hasDirectors` column flags. -/
structure Criteria where
  selGenres : List (List Char)
  selRatings : List (List Char)
  yearMinS : List Char
  yearMaxS : List Char
  directorSearch : List Char
  hasGenres : Bool
  hasDirectors : Bool

def recYear (r : Record) : Option Int := jsParseInt (fieldD r ("Year".toList))

/-- The `minYear` of the MovieList `useMemo`: `Infinity` (modelled `none`)
when `hasGenres` is false or no year parses, else the least parsed year. -/
def minYearOf (hasGenres : Bool) (movies : List Record) : Option Int :=
  if hasGenres then
    (movies.filterMap recYear).foldl
      (fun acc y => match acc with
        | none => some y
        | some m => some (if y < m then y else m)) none
  else none

/-- The `maxYear` of the MovieList `useMemo`: `-Infinity` (modelled `none`)
when `hasGenres` is false or no year parses, else the greatest parsed year. -/
def maxYearOf (hasGenres : Bool) (movies : List Record) : Option Int :=
  if hasGenres then
    (movies.filterMap recYear).foldl
      (fun acc y => match acc with
        | none => some y
        | some m => some (if m < y then y else m)) none
  else none

/-- `parseInt(s, 10) || fallback`: `NaN` and `0` are falsy. -/
def jsOrNum (v : Option Int) (fb : Option Int) : Option Int :=
  match v with
  | some n => if n = 0 then fb else some n
  | none => fb

def resolvedMin (c : Criteria) (movies : List Record) : Option Int :=
  jsOrNum (jsParseInt c.yearMinS) (minYearOf c.hasGenres movies)

def resolvedMax (c : Criteria) (movies : List Record) : Option Int :=
  jsOrNum (jsParseInt c.yearMaxS) (maxYearOf c.hasGenres movies)

/-- `if (isNaN(movieYear) || movieYear < min || movieYear > max) return
false`, with `none` bounds standing for `Infinity` (min) and `-Infinity`
(max), which exclude every record. -/
def yearPass (rmin rmax : Option Int) (r : Record) : Bool :=
  match recYear r with
  | none => false
  | some y =>
    (match rmin with | some m => decide (m ≤ y) | none => false)
    && (match rmax with | some mx => decide (y ≤ mx) | none => false)

/-- Genre facet: with a Genres column and a non-empty selection, every
selected genre must occur in the record's translated genre list. -/
def genrePass (c : Criteria) (r : Record) : Bool :=
  if c.hasGenres && !c.selGenres.isEmpty then
    c.selGenres.all (fun g => decide (g ∈ genresOf r))
  else true

/-- Rating facet: `selectedRatings.has(movie['Your Rating'])` when any
rating is selected (`has(undefined)` is false). -/
def ratingPass (c : Criteria) (r : Record) : Bool :=
  if !c.selRatings.isEmpty then
    (match getField r ("Your Rating".toList) with
     | some v => decide (v ∈ c.selRatings)
     | none => false)
  else true

/-- Director facet: case-insensitive substring match when a Directors
column exists and the trimmed search string is non-empty. -/
def directorPass (c : Criteria) (r : Record) : Bool :=
  let ds := toLowerL (jsTrim c.directorSearch)
  if c.hasDirectors && !ds.isEmpty then
    containsSub (toLowerL (fieldD r ("Directors".toList))) ds
  else true

/-- The `filteredMovies` filter stage of MovieList (MovieChart.tsx lines
147-184): the conjunction of the year, genre, rating and director facets. -/
def movieListFilter (c : Criteria) (movies : List Record) : List Record :=
  movies.filter (fun r =>
    yearPass (resolvedMin c movies) (resolvedMax c movies) r && genrePass c r &&
      ratingPass c r && directorPass c r)

/- ### Spec-side definitions for the delimiter and split claims -/

/-- Spec-side count of C5's "top-level" occurrences of `d`: positions
preceded by an even number of double quotes on the line. -/
def countTopLevelAux (d : Char) : List Char → Nat → Nat
  | [], _ => 0
  | c :: rest, q =>
    (if c = d ∧ q % 2 = 0 then 1 else 0) +
      countTopLevelAux d rest (if c = '"' then q + 1 else q)

def countTopLevel (d : Char) (s : List Char) : Nat := countTopLevelAux d s 0

/-- The delimiter choice C5 describes: compare top-level comma and
semicolon counts. -/
def specTopLevelChoice (headerLine : List Char) : Char :=
  if countTopLevel ',' headerLine ≥ countTopLevel ';' headerLine then ',' else ';'

/-- The split rule C6 describes: a delimiter occurrence is a split point
exactly when an even number of double quotes have been seen since the last
split point on the line. -/
def specSeenSplitAux (d : Char) : List Char → Nat → List Char → List (List Char)
  | [], _, acc => [acc.reverse]
  | c :: rest, cnt, acc =>
    if c = d ∧ cnt % 2 = 0 then acc.reverse :: specSeenSplitAux d rest 0 []
    else specSeenSplitAux d rest (if c = '"' then cnt + 1 else cnt) (c :: acc)

def specSeenSplit (d : Char) (s : List Char) : List (List Char) :=
  specSeenSplitAux d s 0 []

/- ### Auxiliary notions used by the theorems -/

/-- Descending-rating order on records via `ratingD` (exact on records whose
rating parses). -/
def ratingGe (a b : Record) : Prop := ratingD b ≤ ratingD a

def keysP (l : List (Int × Nat)) : List Int := l.map Prod.fst

def lookupC (l : List (Int × Nat)) (y : Int) : Option Nat :=
  (l.find? (fun p => p.1 == y)).map Prod.snd

def keyLe (p q : Int × Nat) : Prop := p.1 ≤ q.1

def keyLt (p q : Int × Nat) : Prop := p.1 < q.1

/- ### Concrete data used by witnesses and counterexamples -/

/-- The 5-data-row file of the malformed-row-skipping property: row 3 has an
extra field. -/
def fileEx : List Char :=
  ("Const,Title,Year\r\nc1,T1,2000\nc2,T2,2001\nc3,T3,2001,EXTRA\nc4,T4,2002\nc5,T5,2003").toList

def hdEx : List Char := ("Const,Title,Year").toList

def dsEx : List (List Char) :=
  [("c1,T1,2000").toList, ("c2,T2,2001").toList, ("c3,T3,2001,EXTRA").toList,
   ("c4,T4,2002").toList, ("c5,T5,2003").toList]

def mkMov (t y rt : String) : Record :=
  [(("Title").toList, t.toList), (("Year").toList, y.toList),
   (("Your Rating").toList, rt.toList)]

/-- Qualifying records with years 1999, 1999, 2001. -/
def exAgg : List Record :=
  [mkMov ("A") ("1999") ("5"), mkMov ("B") ("1999") ("6"), mkMov ("C") ("2001") ("7")]

def exSearchMovies : List Record :=
  [mkMov ("Alpha") ("1999") ("5"), mkMov ("Beta") ("2000") ("9"),
   mkMov ("Gamma") ("2001") ("7")]

/-- A record whose raw comma-separated genre list is `Drama, War`. -/
def recDW : Record :=
  [(("Const").toList, ("c1").toList), (("Title").toList, ("A").toList),
   (("Year").toList, ("2000").toList), (("Your Rating").toList, ("8").toList),
   (("Genres").toList, ("Drama, War").toList)]

/-- Criteria selecting the literal genre names `Drama` and `War` with a
permissive year range and no other facet. -/
def cexC9 : Criteria :=
  ⟨[("Drama").toList, ("War").toList], [], ("1").toList, ("3000").toList, [],
   true, false⟩

/-- The same criteria with the post-translation genre names `Drama` and
`Krig`. -/
def cKrig : Criteria :=
  ⟨[("Drama").toList, ("Krig").toList], [], ("1").toList, ("3000").toList, [],
   true, false⟩

/-- Default criteria: nothing selected, empty year-range inputs. -/
def cDefault : Criteria := ⟨[], [], [], [], [], true, false⟩

/-- First row of a file lacking `URL` and both title-type spellings. -/
def recMissing : Record :=
  [(("Const").toList, ("c").toList), (("Title").toList, ("t").toList),
   (("Year").toList, ("2000").toList), (("Your Rating").toList, ("5").toList)]

/-- First row of a file with all required columns present. -/
def recGood : Record :=
  recMissing ++ [(("URL").toList, ("u").toList), (("TitleType").toList, ("movie").toList)]

/- ### Shared lemmas -/

theorem qualifies_agree (e : Record) : jsQualifies e = specQualifies e := by
  unfold jsQualifies specQualifies jsOrStr fieldD
  cases h1 : getField e ("Title Type".toList) with
  | none =>
    cases h2 : getField e ("TitleType".toList) with
    | none =>
      cases h3 : getField e ("Year".toList) <;> simp <;>
        exact fun h => absurd h (by decide)
    | some v => cases h3 : getField e ("Year".toList) <;> simp
  | some u =>
    cases hu : u.isEmpty with
    | true =>
      have hu0 : u = [] := by simpa using hu
      subst hu0
      cases h2 : getField e ("TitleType".toList) with
      | none =>
        cases h3 : getField e ("Year".toList) <;> simp <;>
          exact fun h => absurd h (by decide)
      | some v => cases h3 : getField e ("Year".toList) <;> simp
    | false => cases h3 : getField e ("Year".toList) <;> simp [hu]

/-- C3: the qualifying-movie filter keeps exactly the records whose
title-type field (header spelling `Title Type`, falling back to
`TitleType`) case-insensitively equals `movie` and whose `Year` field is a
non-empty string, preserving their relative order (the result is a sublist
of the input). -/
theorem filter_c3 (data : List Record) :
    filterAndProcessMovies data = data.filter specQualifies ∧
    List.Sublist (filterAndProcessMovies data) data := by
  constructor
  · unfold filterAndProcessMovies
    exact List.filter_congr (fun x _ => qualifies_agree x)
  · exact List.filter_sublist data

theorem splitCharAux_length (d : Char) :
    ∀ (s : List Char) (acc : List Char),
      (splitCharAux d s acc).length = s.countP (fun c => c == d) + 1 := by
  intro s
  induction s with
  | nil => intro acc; simp [splitCharAux]
  | cons c rest ih =>
    intro acc
    by_cases hc : c = d
    · simp [splitCharAux, hc, List.countP_cons, ih]
    · simp [splitCharAux, hc, List.countP_cons, ih]

/-- C5 counterexample: on the header `"a,,b";c` the program picks the comma
(raw counts: two commas versus one semicolon) while the claim's top-level
counting (zero top-level commas versus one top-level semicolon) picks the
semicolon. -/
theorem delim_c5_counterexample :
    detectDelimiter (("\"a,,b\";c").toList) ≠
      specTopLevelChoice (("\"a,,b\";c").toList) ∧
    detectDelimiter (("\"a,,b\";c").toList) = ',' ∧
    specTopLevelChoice (("\"a,,b\";c").toList) = ';' := by decide

/-- C5 amended: delimiter auto-detection counts all commas versus all
semicolons in the header line (including occurrences inside quoted spans)
and chooses comma exactly when the comma count is greater than or equal to
the semicolon count; `Const,Title,Year` picks comma, `Const;Title;Year`
picks semicolon, and a header with equal counts picks comma. -/
theorem delim_c5_amended :
    (∀ h : List Char,
      detectDelimiter h =
        (if h.countP (fun c => c == ';') ≤ h.countP (fun c => c == ',') then ','
         else ';')) ∧
    detectDelimiter (("Const,Title,Year").toList) = ',' ∧
    detectDelimiter (("Const;Title;Year").toList) = ';' ∧
    detectDelimiter (("Const,;Title").toList) = ',' := by
  refine ⟨?_, by decide, by decide, by decide⟩
  intro h
  unfold detectDelimiter splitChar
  rw [splitCharAux_length, splitCharAux_length]
  by_cases hc : h.countP (fun c => c == ';') ≤ h.countP (fun c => c == ',')
  · rw [if_pos (by omega), if_pos hc]
  · rw [if_neg (by omega), if_neg hc]

/-- C10: every record the faceted main-list filter keeps has a `Year` field
that parses as an integer, for every criteria and input; a record whose
year does not parse is excluded from the main list. -/
theorem year_c10 (c : Criteria) (movies : List Record) (r : Record)
    (hmem : r ∈ movieListFilter c movies) : (recYear r).isSome = true := by
  unfold movieListFilter at hmem
  have h := (List.mem_filter.mp hmem).2
  simp only [Bool.and_eq_true] at h
  have h1 : yearPass (resolvedMin c movies) (resolvedMax c movies) r = true :=
    h.1.1.1
  unfold yearPass at h1
  cases hy : recYear r with
  | none => rw [hy] at h1; exact absurd h1 (by simp)
  | some y => simp

/-- C10 witness: with default criteria, a record with year 2000 is kept and
its year indeed parses. -/
theorem year_c10_witness : (recYear recDW).isSome = true :=
  year_c10 cDefault [recDW] recDW (by decide)

/-- C9 counterexample: with the selected genre set containing the literal
names `Drama` and `War`, the record whose raw genre list is `Drama, War`
(and which passes every other facet) is rejected, because the localization
table translates `War` to `Krig`; the claim's example says it is kept. -/
theorem genre_c9_counterexample :
    movieListFilter cexC9 [recDW] = [] ∧
    fieldD recDW (("Genres").toList) = ("Drama, War").toList ∧
    genresOf recDW = [("Drama").toList, ("Krig").toList] := by decide

/-- C9 amended: when the Genres column exists and at least one genre is
selected, a record kept by the faceted main-list filter has a translated
genre list that is a superset of the selected genre set (AND semantics);
the example holds with the post-translation names, e.g. selecting
`{Drama, Krig}` keeps a record with raw genres `Drama, War`. -/
theorem genre_c9_amended (c : Criteria) (movies : List Record) (r : Record)
    (hg : c.hasGenres = true) (hs : c.selGenres ≠ [])
    (hmem : r ∈ movieListFilter c movies) :
    ∀ g ∈ c.selGenres, g ∈ genresOf r := by
  unfold movieListFilter at hmem
  have h := (List.mem_filter.mp hmem).2
  simp only [Bool.and_eq_true] at h
  have hgp : genrePass c r = true := h.1.1.2
  unfold genrePass at hgp
  rw [if_pos] at hgp
  · intro g hgmem
    have := List.all_eq_true.mp hgp g hgmem
    simpa using this
  · simp [hg, hs]

/-- C9 witness: with the translated selection `{Drama, Krig}` the
`Drama, War` record is kept, and both selected genres occur in its
translated genre list. -/
theorem genre_c9_witness :
    ("Krig").toList ∈ genresOf recDW ∧ ("Drama").toList ∈ genresOf recDW := by
  have h := genre_c9_amended cKrig [recDW] recDW rfl (by decide) (by decide)
  exact ⟨h (("Krig").toList) (by decide), h (("Drama").toList) (by decide)⟩

theorem trimLeft_eq_self (s : List Char)
    (h : ∀ c, s.head? = some c → jsWhitespace c = false) : trimLeft s = s := by
  cases s with
  | nil => rfl
  | cons c t =>
    unfold trimLeft
    rw [List.dropWhile_cons, if_neg]
    simp [h c rfl]

theorem trimRight_eq_self (s : List Char)
    (h : ∀ c, s.getLast? = some c → jsWhitespace c = false) : trimRight s = s := by
  unfold trimRight
  cases hs : s.reverse with
  | nil =>
    have : s = [] := by simpa using congrArg List.reverse hs
    simp [this]
  | cons c t =>
    have hc : s.getLast? = some c := by
      rw [← List.head?_reverse, hs]
      rfl
    rw [List.dropWhile_cons, if_neg (by simp [h c hc])]
    have := congrArg List.reverse hs
    simpa using this.symm

theorem jsTrim_eq_self (s : List Char)
    (hh : ∀ c, s.head? = some c → jsWhitespace c = false)
    (hl : ∀ c, s.getLast? = some c → jsWhitespace c = false) : jsTrim s = s := by
  unfold jsTrim
  rw [trimLeft_eq_self s hh, trimRight_eq_self s hl]

/-- C4 counterexample: a trimmed field carrying a double quote on only one
side is not left unchanged — the one quote is stripped. -/
theorem clean_c4_counterexample :
    cleanField (("\"abc").toList) ≠ ("\"abc").toList ∧
    cleanField (("\"abc").toList) = ("abc").toList ∧
    cleanField (("abc\"").toList) = ("abc").toList := by decide

/-- C4 amended: after trimming, the parser strips one leading double quote
if present and one trailing double quote if present, each independently of
the other (doubled quotes are never unescaped); for any content `m` that
carries no whitespace and no quote at its ends, the quoted, half-quoted and
unquoted forms all clean to `m`. -/
theorem clean_c4_amended (m : List Char)
    (hh : m.head?.all (fun c => !jsWhitespace c && !(c == '"')) = true)
    (hl : m.getLast?.all (fun c => !jsWhitespace c && !(c == '"')) = true) :
    cleanField ('"' :: m ++ ['"']) = m ∧
    cleanField ('"' :: m) = m ∧
    cleanField (m ++ ['"']) = m ∧
    cleanField m = m := by
  have hh2 : ∀ c, m.head? = some c → jsWhitespace c = false ∧ c ≠ '"' := by
    intro c hc
    rw [hc] at hh
    simp only [Option.all_some, Bool.and_eq_true, Bool.not_eq_true'] at hh
    exact ⟨hh.1, by simpa using hh.2⟩
  have hl2 : ∀ c, m.getLast? = some c → jsWhitespace c = false ∧ c ≠ '"' := by
    intro c hc
    rw [hc] at hl
    simp only [Option.all_some, Bool.and_eq_true, Bool.not_eq_true'] at hl
    exact ⟨hl.1, by simpa using hl.2⟩
  have hwq : jsWhitespace '"' = false := by decide
  refine ⟨?_, ?_, ?_, ?_⟩
  · -- fully quoted form
    have htrim : jsTrim ('"' :: m ++ ['"']) = '"' :: m ++ ['"'] := by
      apply jsTrim_eq_self
      · intro c hc
        simp only [List.cons_append, List.head?_cons, Option.some.injEq] at hc
        rw [← hc]; exact hwq
      · intro c hc
        rw [show ('"' :: m ++ ['"']).getLast? = some '"' from by
            rw [← List.head?_reverse]; simp] at hc
        cases hc; exact hwq
    unfold cleanField stripQuotes
    rw [htrim]
    show dropTrailingQuote (dropLeadingQuote ('"' :: (m ++ ['"']))) = m
    rw [show dropLeadingQuote ('"' :: (m ++ ['"'])) = m ++ ['"'] from by
        simp [dropLeadingQuote]]
    unfold dropTrailingQuote
    rw [if_pos (by simp [List.getLast?_concat]), List.dropLast_concat]
  · -- leading quote only
    have htrim : jsTrim ('"' :: m) = '"' :: m := by
      apply jsTrim_eq_self
      · intro c hc
        simp only [List.head?_cons, Option.some.injEq] at hc
        rw [← hc]; exact hwq
      · intro c hc
        cases hm : m.reverse with
        | nil =>
          have : m = [] := by simpa using congrArg List.reverse hm
          subst this
          simp at hc
          cases hc; exact hwq
        | cons b t =>
          have hb : m.getLast? = some b := by rw [← List.head?_reverse, hm]; rfl
          have : ('"' :: m).getLast? = some b := by
            rw [← List.head?_reverse]
            simp [hm]
          rw [this] at hc
          have hcb := Option.some.inj hc
          rw [← hcb]
          exact (hl2 b hb).1
    unfold cleanField stripQuotes
    rw [htrim]
    rw [show dropLeadingQuote ('"' :: m) = m from by simp [dropLeadingQuote]]
    unfold dropTrailingQuote
    cases hm : m.getLast? with
    | none => simp
    | some b =>
      rw [if_neg]
      simp only [Option.some.injEq]
      exact fun hb => (hl2 b hm).2 (by rw [← hb])
  · -- trailing quote only
    cases m with
    | nil => decide
    | cons a t =>
      have ha : jsWhitespace a = false ∧ a ≠ '"' := hh2 a rfl
      have htrim : jsTrim ((a :: t) ++ ['"']) = (a :: t) ++ ['"'] := by
        apply jsTrim_eq_self
        · intro c hc
          simp only [List.cons_append, List.head?_cons, Option.some.injEq] at hc
          rw [← hc]; exact ha.1
        · intro c hc
          rw [show ((a :: t) ++ ['"']).getLast? = some '"' from
            List.getLast?_concat (a :: t)] at hc
          cases hc; exact hwq
      unfold cleanField stripQuotes
      rw [htrim]
      rw [show dropLeadingQuote ((a :: t) ++ ['"']) = (a :: t) ++ ['"'] from by
          simp [dropLeadingQuote, ha.2]]
      unfold dropTrailingQuote
      rw [if_pos (List.getLast?_concat (a :: t)), List.dropLast_concat]
  · -- no quotes at the ends
    have htrim : jsTrim m = m :=
      jsTrim_eq_self m (fun c hc => (hh2 c hc).1) (fun c hc => (hl2 c hc).1)
    unfold cleanField stripQuotes
    rw [htrim]
    cases m with
    | nil => rfl
    | cons a t =>
      have ha : a ≠ '"' := (hh2 a rfl).2
      rw [show dropLeadingQuote (a :: t) = a :: t from by simp [dropLeadingQuote, ha]]
      unfold dropTrailingQuote
      cases hm : (a :: t).getLast? with
      | none => simp
      | some b =>
        rw [if_neg]
        simp only [Option.some.injEq]
        exact fun hb => ((hl2 b hm).2) (by rw [← hb])

/-- C4 witness: both the fully quoted form and the leading-quote-only form
of the content `abc` clean to `abc`. -/
theorem clean_c4_witness :
    cleanField ('"' :: ("abc").toList ++ ['"']) = ("abc").toList ∧
    cleanField ('"' :: ("abc").toList) = ("abc").toList := by
  have h := clean_c4_amended (("abc").toList) (by decide) (by decide)
  exact ⟨h.1, h.2.1⟩

theorem seenSplitAux_eq_splitQAAux (d : Char) (hd : d ≠ '"') :
    ∀ (s : List Char) (cnt : Nat) (acc : List Char),
      (cnt + quoteCnt s) % 2 = 0 →
      specSeenSplitAux d s cnt acc = splitQAAux d s acc := by
  intro s
  induction s with
  | nil => intro cnt acc _; rfl
  | cons c rest ih =>
    intro cnt acc hpar
    by_cases hc : c = d
    · have hcq : c ≠ '"' := by rw [hc]; exact hd
      have hcount : quoteCnt (c :: rest) = quoteCnt rest := by
        simp [quoteCnt, List.countP_cons, hcq]
      rw [hcount] at hpar
      by_cases he : cnt % 2 = 0
      · have h1 : c = d ∧ cnt % 2 = 0 := ⟨hc, he⟩
        have h2 : c = d ∧ quoteCnt rest % 2 = 0 := ⟨hc, by omega⟩
        simp only [specSeenSplitAux, splitQAAux, if_pos h1, if_pos h2]
        rw [ih 0 [] (by omega)]
      · have h1 : ¬(c = d ∧ cnt % 2 = 0) := fun h => he h.2
        have h2 : ¬(c = d ∧ quoteCnt rest % 2 = 0) := by
          intro h
          exact he (by omega)
        simp only [specSeenSplitAux, splitQAAux, if_neg h1, if_neg h2,
          if_neg hcq]
        exact ih cnt (c :: acc) (by omega)
    · have h1 : ¬(c = d ∧ cnt % 2 = 0) := fun h => hc h.1
      have h2 : ¬(c = d ∧ quoteCnt rest % 2 = 0) := fun h => hc h.1
      simp only [specSeenSplitAux, splitQAAux, if_neg h1, if_neg h2]
      by_cases hq : c = '"'
      · have hcount : quoteCnt (c :: rest) = quoteCnt rest + 1 := by
          simp [quoteCnt, List.countP_cons, hq]
        rw [hcount] at hpar
        rw [if_pos hq]
        exact ih (cnt + 1) (c :: acc) (by omega)
      · have hcount : quoteCnt (c :: rest) = quoteCnt rest := by
          simp [quoteCnt, List.countP_cons, hq]
        rw [hcount] at hpar
        rw [if_neg hq]
        exact ih cnt (c :: acc) (by omega)

/-- C6 counterexample: on the line `a,"b,c` (an odd number of double
quotes) the program's lookahead split produces `a,"b` and `c`, while the
claim's rule — split only when an even number of quotes have been seen
since the last split point — produces `a` and `"b,c`. -/
theorem split_c6_counterexample :
    splitQA ',' (("a,\"b,c").toList) ≠ specSeenSplit ',' (("a,\"b,c").toList) ∧
    splitQA ',' (("a,\"b,c").toList) = [("a,\"b").toList, ("c").toList] ∧
    specSeenSplit ',' (("a,\"b,c").toList) = [("a").toList, ("\"b,c").toList] := by
  decide

/-- C6 amended: an occurrence of the chosen delimiter is a split point
exactly when the number of double quotes after it to the end of the line is
even; on a line whose total number of double quotes is even this coincides
with the claim's rule (an even number of quotes seen since the last split
point), so a delimiter embedded inside a double-quoted field stays within a
single field. -/
theorem split_c6_amended (d : Char) (s : List Char) (hd : d ≠ '"')
    (hev : quoteCnt s % 2 = 0) : splitQA d s = specSeenSplit d s :=
  (seenSplitAux_eq_splitQAAux d hd s 0 [] (by omega)).symm

/-- C6 witness: on the comma-delimited row `c1,"Drama, Romance",2000` both
rules agree and the quoted value `"Drama, Romance"` stays a single field. -/
theorem split_c6_witness :
    splitQA ',' (("c1,\"Drama, Romance\",2000").toList) =
      specSeenSplit ',' (("c1,\"Drama, Romance\",2000").toList) ∧
    splitQA ',' (("c1,\"Drama, Romance\",2000").toList) =
      [("c1").toList, ("\"Drama, Romance\"").toList, ("2000").toList] :=
  ⟨split_c6_amended ',' _ (by decide) (by decide), by decide⟩

theorem length_filterMap_eq_countP (f : α → Option β) (l : List α) :
    (l.filterMap f).length = l.countP (fun a => (f a).isSome) := by
  induction l with
  | nil => rfl
  | cons a t ih =>
    cases hf : f a <;>
      simp [List.filterMap_cons, hf, List.countP_cons, ih]

/-- C1: with at least a header among the non-blank lines, the parser yields
one record per data line whose field count matches the header's, skipping
the other lines without affecting later ones (the result is the in-order
`filterMap` of the data lines); the result length counts exactly the
well-formed data lines; and every produced record's key list is the
header's field list. -/
theorem parse_c1 (text : List Char) (hd : List Char) (ds : List (List Char))
    (hlines : linesOf text = hd :: ds) :
    parseCSV text = ds.filterMap (mkRecord (headerOf hd) (detectDelimiter hd)) ∧
    (parseCSV text).length =
      ds.countP (fun l =>
        decide ((splitQA (detectDelimiter hd) l).length = (headerOf hd).length)) ∧
    ∀ r ∈ parseCSV text, keysOfR r = headerOf hd := by
  have hparse :
      parseCSV text = ds.filterMap (mkRecord (headerOf hd) (detectDelimiter hd)) := by
    unfold parseCSV
    rw [hlines]
    cases ds with
    | nil => rfl
    | cons d t => rfl
  refine ⟨hparse, ?_, ?_⟩
  · rw [hparse, length_filterMap_eq_countP]
    apply List.countP_congr
    intro l _
    by_cases h : (splitQA (detectDelimiter hd) l).length = (headerOf hd).length <;>
      simp [mkRecord, h]
  · intro r hr
    rw [hparse] at hr
    obtain ⟨line, _, hmk⟩ := List.mem_filterMap.mp hr
    unfold mkRecord at hmk
    by_cases h : (splitQA (detectDelimiter hd) line).length = (headerOf hd).length
    · rw [if_pos h] at hmk
      have hr2 := Option.some.inj hmk
      rw [← hr2]
      unfold keysOfR
      apply List.map_fst_zip
      rw [List.length_map, h]
    · rw [if_neg h] at hmk
      cases hmk

/-- C1 witness: the 5-data-row file whose third row has an extra field
yields a record count equal to the number of well-formed rows, namely 4. -/
theorem parse_c1_witness :
    (parseCSV fileEx).length =
      dsEx.countP (fun l =>
        decide ((splitQA (detectDelimiter hdEx) l).length = (headerOf hdEx).length)) ∧
    (parseCSV fileEx).length = 4 := by
  have h := parse_c1 fileEx hdEx dsEx (by decide)
  exact ⟨h.2.1, by decide⟩

theorem missing_nil_iff (r : Record) :
    (missingColumns r).isEmpty = true ↔ ∀ c ∈ REQUIRED_COLUMNS, c ∈ keysOfR r := by
  unfold missingColumns
  rw [List.isEmpty_iff, List.filter_eq_nil_iff]
  simp [hasKey]

theorem hasTT_iff (r : Record) :
    hasTitleTypeKey r = true ↔
      (("Title Type").toList ∈ keysOfR r ∨ ("TitleType").toList ∈ keysOfR r) := by
  unfold hasTitleTypeKey hasKey
  simp

theorem mem_missing_iff (r : Record) (c : List Char) :
    c ∈ missingColumns r ↔ c ∈ REQUIRED_COLUMNS ∧ c ∉ keysOfR r := by
  unfold missingColumns
  simp [List.mem_filter, hasKey]

/-- C8: the upload passes the column check exactly when every required
column (`Const`, `Title`, `Year`, `Your Rating`, `URL`) and at least one of
the title-type spellings is a key of the first record; when it is rejected,
the reported list contains precisely the missing required columns plus the
single logical name `Title Type` when both spellings are absent; and the
concrete file lacking `URL` and both spellings reports exactly `URL` and
`Title Type`. -/
theorem validate_c8 (r : Record) :
    (validationError r = none ↔
      ((∀ c ∈ REQUIRED_COLUMNS, c ∈ keysOfR r) ∧
        (("Title Type").toList ∈ keysOfR r ∨ ("TitleType").toList ∈ keysOfR r)))
    ∧ (∀ m, validationError r = some m →
        ∀ c, c ∈ m ↔
          ((c ∈ REQUIRED_COLUMNS ∧ c ∉ keysOfR r) ∨
            (c = ("Title Type").toList ∧ ("Title Type").toList ∉ keysOfR r ∧
              ("TitleType").toList ∉ keysOfR r)))
    ∧ validationError recMissing = some [("URL").toList, ("Title Type").toList] := by
  refine ⟨?_, ?_, by decide⟩
  · unfold validationError
    by_cases hcond : ((missingColumns r).isEmpty && hasTitleTypeKey r) = true
    · rw [if_pos hcond]
      simp only [Bool.and_eq_true] at hcond
      simp only [true_iff]
      exact ⟨(missing_nil_iff r).mp hcond.1, (hasTT_iff r).mp hcond.2⟩
    · rw [if_neg hcond]
      simp only [Bool.and_eq_true, not_and_or, Bool.not_eq_true] at hcond
      constructor
      · intro h; cases h
      · rintro ⟨h1, h2⟩
        rcases hcond with hc | hc
        · rw [Bool.eq_false_iff] at hc
          exact absurd ((missing_nil_iff r).mpr h1) hc
        · rw [Bool.eq_false_iff] at hc
          exact absurd ((hasTT_iff r).mpr h2) hc
  · intro m hm c
    unfold validationError at hm
    by_cases hcond : ((missingColumns r).isEmpty && hasTitleTypeKey r) = true
    · rw [if_pos hcond] at hm; cases hm
    · rw [if_neg hcond] at hm
      have hm2 := (Option.some.inj hm).symm
      subst hm2
      rw [List.mem_append, mem_missing_iff]
      cases hT : hasTitleTypeKey r with
      | true =>
        have hT2 := (hasTT_iff r).mp hT
        simp only [if_pos rfl]
        constructor
        · rintro (h | h)
          · exact Or.inl h
          · cases h
        · rintro (h | ⟨_, hn1, hn2⟩)
          · exact Or.inl h
          · exact absurd hT2 (not_or.mpr ⟨hn1, hn2⟩)
      | false =>
        have hT2 : ¬(("Title Type").toList ∈ keysOfR r ∨
            ("TitleType").toList ∈ keysOfR r) := by
          intro h
          rw [(hasTT_iff r).mpr h] at hT
          cases hT
        rw [not_or] at hT2
        simp only [if_neg (by simp : ¬(false : Bool) = true)]
        constructor
        · rintro (h | h)
          · exact Or.inl h
          · rcases List.mem_singleton.mp h with rfl
            exact Or.inr ⟨rfl, hT2.1, hT2.2⟩
        · rintro (h | ⟨rfl, _, _⟩)
          · exact Or.inl h
          · exact Or.inr (List.mem_singleton.mpr rfl)

/-- C8 witness: a first record with all required columns and the
`TitleType` spelling passes the column check. -/
theorem validate_c8_witness : validationError recGood = none :=
  (validate_c8 recGood).1.mpr (by decide)

theorem insertRat_perm (x : Record) (l : List Record) :
    List.Perm (insertRat x l) (x :: l) := by
  induction l with
  | nil => exact List.Perm.refl _
  | cons y ys ih =>
    unfold insertRat
    by_cases h : ratLe x y = true
    · rw [if_pos h]
    · rw [if_neg h]
      exact (ih.cons y).trans (List.Perm.swap x y ys)

theorem sortRatDesc_perm (l : List Record) : List.Perm (sortRatDesc l) l := by
  induction l with
  | nil => exact List.Perm.refl _
  | cons x xs ih =>
    have : sortRatDesc (x :: xs) = insertRat x (sortRatDesc xs) := rfl
    rw [this]
    exact (insertRat_perm x (sortRatDesc xs)).trans (ih.cons x)

theorem ratingGe_of_ratLe {a b : Record} (ha : (ratingIntOf a).isSome = true)
    (hb : (ratingIntOf b).isSome = true) (h : ratLe a b = true) : ratingGe a b := by
  obtain ⟨ra, hra⟩ := Option.isSome_iff_exists.mp ha
  obtain ⟨rb, hrb⟩ := Option.isSome_iff_exists.mp hb
  have hc : cmpRating a b = rb - ra := by unfold cmpRating; rw [hra, hrb]
  unfold ratLe at h
  rw [hc] at h
  have h2 := of_decide_eq_true h
  unfold ratingGe ratingD
  rw [hra, hrb]
  simp only [Option.getD_some]
  omega

theorem ratingGe_of_not_ratLe {a b : Record} (ha : (ratingIntOf a).isSome = true)
    (hb : (ratingIntOf b).isSome = true) (h : ¬ ratLe a b = true) : ratingGe b a := by
  obtain ⟨ra, hra⟩ := Option.isSome_iff_exists.mp ha
  obtain ⟨rb, hrb⟩ := Option.isSome_iff_exists.mp hb
  have hc : cmpRating a b = rb - ra := by unfold cmpRating; rw [hra, hrb]
  unfold ratLe at h
  rw [hc, decide_eq_true_eq] at h
  unfold ratingGe ratingD
  rw [hra, hrb]
  simp only [Option.getD_some]
  omega

theorem pairwise_insertRat (x : Record) (l : List Record)
    (hx : (ratingIntOf x).isSome = true)
    (hl : ∀ y ∈ l, (ratingIntOf y).isSome = true)
    (hp : l.Pairwise ratingGe) : (insertRat x l).Pairwise ratingGe := by
  induction l with
  | nil => simp [insertRat]
  | cons y ys ih =>
    have hy : (ratingIntOf y).isSome = true := hl y (by simp)
    have hys : ∀ z ∈ ys, (ratingIntOf z).isSome = true :=
      fun z hz => hl z (by simp [hz])
    rw [List.pairwise_cons] at hp
    unfold insertRat
    by_cases h : ratLe x y = true
    · rw [if_pos h]
      rw [List.pairwise_cons]
      constructor
      · intro z hz
        rcases List.mem_cons.mp hz with rfl | hz2
        · exact ratingGe_of_ratLe hx hy h
        · exact le_trans (hp.1 z hz2) (ratingGe_of_ratLe hx hy h)
      · exact List.pairwise_cons.mpr hp
    · rw [if_neg h]
      rw [List.pairwise_cons]
      constructor
      · intro z hz
        have hz2 := (insertRat_perm x ys).mem_iff.mp hz
        rcases List.mem_cons.mp hz2 with rfl | hz3
        · exact ratingGe_of_not_ratLe hx hy h
        · exact hp.1 z hz3
      · exact ih hys hp.2

theorem sortRatDesc_pairwise (l : List Record)
    (hl : ∀ y ∈ l, (ratingIntOf y).isSome = true) :
    (sortRatDesc l).Pairwise ratingGe := by
  induction l with
  | nil => simp [sortRatDesc]
  | cons x xs ih =>
    have hx : (ratingIntOf x).isSome = true := hl x (by simp)
    have hxs : ∀ y ∈ xs, (ratingIntOf y).isSome = true :=
      fun y hy => hl y (by simp [hy])
    have hmem : ∀ y ∈ sortRatDesc xs, (ratingIntOf y).isSome = true :=
      fun y hy => hxs y ((sortRatDesc_perm xs).mem_iff.mp hy)
    have : sortRatDesc (x :: xs) = insertRat x (sortRatDesc xs) := rfl
    rw [this]
    exact pairwise_insertRat x (sortRatDesc xs) hx hmem (ih hxs)

/-- C7: a whitespace-only query yields the empty result, not the full set;
a non-empty query yields a permutation of the records whose title contains
the query case-insensitively; and, when every kept record's rating parses
as an integer, the result is sorted descending by rating. -/
theorem search_c7 (movies : List Record) (q : List Char) :
    ((jsTrim q).isEmpty = true → searchResults movies q = []) ∧
    ((jsTrim q).isEmpty = false →
      List.Perm (searchResults movies q) (movies.filter (titleMatchB q))) ∧
    ((jsTrim q).isEmpty = false →
      (∀ r ∈ movies.filter (titleMatchB q), (ratingIntOf r).isSome = true) →
      (searchResults movies q).Pairwise ratingGe) := by
  refine ⟨?_, ?_, ?_⟩
  · intro h
    unfold searchResults
    rw [if_pos h]
  · intro h
    unfold searchResults
    rw [if_neg (by simp [h])]
    exact sortRatDesc_perm _
  · intro h hall
    unfold searchResults
    rw [if_neg (by simp [h])]
    exact sortRatDesc_pairwise _ hall

/-- C7 witness: on the query `a` over three titled, rated records the
result is a permutation of the title matches and is sorted descending by
rating. -/
theorem search_c7_witness :
    List.Perm (searchResults exSearchMovies (("a").toList))
      (exSearchMovies.filter (titleMatchB (("a").toList))) ∧
    (searchResults exSearchMovies (("a").toList)).Pairwise ratingGe := by
  have h := search_c7 exSearchMovies (("a").toList)
  exact ⟨h.2.1 (by decide), h.2.2 (by decide) (by decide)⟩

theorem mem_keysP_of_mem {l : List (Int × Nat)} {p : Int × Nat} (h : p ∈ l) :
    p.1 ∈ keysP l := by
  unfold keysP
  exact List.mem_map_of_mem Prod.fst h

theorem lookupC_nil (y : Int) : lookupC [] y = none := rfl

theorem lookupC_cons (k : Int) (c : Nat) (t : List (Int × Nat)) (z : Int) :
    lookupC ((k, c) :: t) z = if k = z then some c else lookupC t z := by
  unfold lookupC
  by_cases h : k = z
  · rw [List.find?_cons_of_pos _ (by simp [h]), if_pos h]
    rfl
  · rw [List.find?_cons_of_neg _ (by simp [h]), if_neg h]

theorem bump_keysP (l : List (Int × Nat)) (y : Int) :
    keysP (bump l y) = if y ∈ keysP l then keysP l else keysP l ++ [y] := by
  induction l with
  | nil => simp [bump, keysP]
  | cons p t ih =>
    obtain ⟨k, c⟩ := p
    by_cases hk : k = y
    · subst hk
      simp [bump, keysP]
    · rw [show bump ((k, c) :: t) y = (k, c) :: bump t y from by simp [bump, hk]]
      rw [show keysP ((k, c) :: bump t y) = k :: keysP (bump t y) from rfl]
      rw [show keysP ((k, c) :: t) = k :: keysP t from rfl]
      rw [ih]
      by_cases hm : y ∈ keysP t
      · rw [if_pos hm, if_pos (List.mem_cons_of_mem k hm)]
      · rw [if_neg hm, if_neg (by
          intro hmem
          rcases List.mem_cons.mp hmem with he | hmem2
          · exact hk he.symm
          · exact hm hmem2)]
        rfl

theorem lookupC_eq_none_iff (l : List (Int × Nat)) (z : Int) :
    lookupC l z = none ↔ z ∉ keysP l := by
  induction l with
  | nil => simp [lookupC_nil, keysP]
  | cons p t ih =>
    obtain ⟨k, c⟩ := p
    rw [lookupC_cons, show keysP ((k, c) :: t) = k :: keysP t from rfl]
    by_cases h : k = z
    · subst h
      rw [if_pos rfl]
      simp
    · rw [if_neg h, ih]
      constructor
      · intro hz hmem
        rcases List.mem_cons.mp hmem with he | hm
        · exact h he.symm
        · exact hz hm
      · intro hz hm
        exact hz (List.mem_cons_of_mem k hm)

theorem bump_lookupC (l : List (Int × Nat)) (y z : Int) :
    lookupC (bump l y) z =
      if z = y then some ((lookupC l y).getD 0 + 1) else lookupC l z := by
  induction l with
  | nil =>
    rw [show bump [] y = [(y, 1)] from rfl, lookupC_cons]
    by_cases h : z = y
    · rw [if_pos h.symm, if_pos h]
      rfl
    · rw [if_neg (fun he => h he.symm), if_neg h]
  | cons p t ih =>
    obtain ⟨k, c⟩ := p
    by_cases hk : k = y
    · subst hk
      rw [show bump ((k, c) :: t) k = (k, c + 1) :: t from by simp [bump]]
      by_cases hz : z = k
      · subst hz
        rw [if_pos rfl, lookupC_cons, lookupC_cons, if_pos rfl, if_pos rfl]
        rfl
      · rw [if_neg hz, lookupC_cons, lookupC_cons,
          if_neg (fun he => hz he.symm), if_neg (fun he => hz he.symm)]
    · rw [show bump ((k, c) :: t) y = (k, c) :: bump t y from by simp [bump, hk]]
      by_cases hz : z = k
      · subst hz
        rw [if_neg hk, lookupC_cons, if_pos rfl, lookupC_cons, if_pos rfl]
      · rw [lookupC_cons, if_neg (fun he => hz he.symm), ih]
        by_cases hzy : z = y
        · rw [if_pos hzy, if_pos hzy, lookupC_cons, if_neg hk]
        · rw [if_neg hzy, if_neg hzy, lookupC_cons, if_neg (fun he => hz he.symm)]

theorem mem_iff_lookupC (l : List (Int × Nat)) (hnd : (keysP l).Nodup) (y : Int)
    (c : Nat) : ((y, c) ∈ l) ↔ lookupC l y = some c := by
  induction l with
  | nil => simp [lookupC_nil]
  | cons p t ih =>
    obtain ⟨k, c2⟩ := p
    have hnd2 : (k :: keysP t).Nodup := by simpa [keysP] using hnd
    rw [List.nodup_cons] at hnd2
    rw [lookupC_cons, List.mem_cons]
    by_cases hk : k = y
    · subst hk
      rw [if_pos rfl]
      constructor
      · rintro (h | h)
        · injection h with h1 h2
          rw [h2]
        · exact absurd (mem_keysP_of_mem h) hnd2.1
      · intro h
        have hc := Option.some.inj h
        exact Or.inl (by rw [hc])
    · rw [if_neg hk, ih hnd2.2]
      constructor
      · rintro (h | h)
        · injection h with h1 h2
          exact absurd h1.symm hk
        · exact h
      · exact Or.inr

theorem bump_sumSnd (l : List (Int × Nat)) (y : Int) :
    sumSnd (bump l y) = sumSnd l + 1 := by
  induction l with
  | nil => simp [bump, sumSnd]
  | cons p t ih =>
    obtain ⟨k, c⟩ := p
    by_cases hk : k = y
    · simp [bump, hk, sumSnd]
      omega
    · simp [bump, hk, sumSnd] at ih ⊢
      omega

theorem countOcc_cons (z a : Int) (l : List Int) :
    countOcc z (a :: l) = countOcc z l + (if a = z then 1 else 0) := by
  by_cases h : a = z <;> simp [countOcc, List.countP_cons, h]

theorem chartStep_none {acc : List (Int × Nat)} {m : Record}
    (h : chartYear m = none) : chartStep acc m = acc := by
  unfold chartStep
  rw [h]

theorem chartStep_some {acc : List (Int × Nat)} {m : Record} {y : Int}
    (h : chartYear m = some y) : chartStep acc m = bump acc y := by
  unfold chartStep
  rw [h]

theorem chartFold_lookupC (movies : List Record) :
    ∀ (acc : List (Int × Nat)) (z : Int),
      lookupC (movies.foldl chartStep acc) z =
        if z ∈ keysP acc ∨ z ∈ movies.filterMap chartYear
        then some ((lookupC acc z).getD 0 + countOcc z (movies.filterMap chartYear))
        else none := by
  induction movies with
  | nil =>
    intro acc z
    simp only [List.foldl_nil, List.filterMap_nil, List.not_mem_nil, or_false]
    cases ho : lookupC acc z with
    | none =>
      rw [if_neg (fun hz => ((lookupC_eq_none_iff acc z).mp ho) hz)]
    | some v =>
      have hz : z ∈ keysP acc := by
        by_contra hz
        rw [(lookupC_eq_none_iff acc z).mpr hz] at ho
        cases ho
      rw [if_pos hz]
      simp [countOcc]
  | cons m rest ih =>
    intro acc z
    rw [List.foldl_cons]
    cases hcy : chartYear m with
    | none =>
      rw [chartStep_none hcy]
      rw [show (m :: rest).filterMap chartYear = rest.filterMap chartYear from by
        simp [List.filterMap_cons, hcy]]
      exact ih acc z
    | some y =>
      rw [chartStep_some hcy]
      rw [show (m :: rest).filterMap chartYear = y :: rest.filterMap chartYear from by
        simp [List.filterMap_cons, hcy]]
      rw [ih (bump acc y) z]
      have hkeys : z ∈ keysP (bump acc y) ↔ (z ∈ keysP acc ∨ z = y) := by
        rw [bump_keysP]
        by_cases hm : y ∈ keysP acc
        · rw [if_pos hm]
          constructor
          · exact Or.inl
          · rintro (h | rfl)
            · exact h
            · exact hm
        · rw [if_neg hm]
          simp [List.mem_append]
      have hlk := bump_lookupC acc y z
      have hco := countOcc_cons z y (rest.filterMap chartYear)
      by_cases hzy : z = y
      · have hc1 : z ∈ keysP (bump acc y) ∨ z ∈ rest.filterMap chartYear :=
          Or.inl (hkeys.mpr (Or.inr hzy))
        have hc2 : z ∈ keysP acc ∨ z ∈ y :: rest.filterMap chartYear :=
          Or.inr (by rw [hzy]; exact List.mem_cons_self y _)
        rw [if_pos hc1, if_pos hc2, hlk, if_pos hzy, hco, if_pos hzy.symm]
        simp only [Option.getD_some]
        congr 1
        rw [hzy]
        omega
      · rw [hlk, if_neg hzy, hco, if_neg (show ¬(y = z) from fun h => hzy h.symm)]
        by_cases hcond : z ∈ keysP acc ∨ z ∈ rest.filterMap chartYear
        · have hc1 : z ∈ keysP (bump acc y) ∨ z ∈ rest.filterMap chartYear := by
            rcases hcond with h | h
            · exact Or.inl (hkeys.mpr (Or.inl h))
            · exact Or.inr h
          have hc2 : z ∈ keysP acc ∨ z ∈ y :: rest.filterMap chartYear := by
            rcases hcond with h | h
            · exact Or.inl h
            · exact Or.inr (List.mem_cons_of_mem y h)
          rw [if_pos hc1, if_pos hc2]
          simp
        · have hc1 : ¬(z ∈ keysP (bump acc y) ∨ z ∈ rest.filterMap chartYear) := by
            rintro (h | h)
            · rcases hkeys.mp h with h2 | h3
              · exact hcond (Or.inl h2)
              · exact hzy h3
            · exact hcond (Or.inr h)
          have hc2 : ¬(z ∈ keysP acc ∨ z ∈ y :: rest.filterMap chartYear) := by
            rintro (h | h)
            · exact hcond (Or.inl h)
            · rcases List.mem_cons.mp h with h2 | h2
              · exact hzy h2
              · exact hcond (Or.inr h2)
          rw [if_neg hc1, if_neg hc2]

theorem keysP_bump_nodup (l : List (Int × Nat)) (y : Int)
    (h : (keysP l).Nodup) : (keysP (bump l y)).Nodup := by
  rw [bump_keysP]
  by_cases hm : y ∈ keysP l
  · rw [if_pos hm]
    exact h
  · rw [if_neg hm]
    rw [List.nodup_append]
    exact ⟨h, List.nodup_singleton y, by simpa using hm⟩

theorem chartFold_keysNodup (movies : List Record) :
    ∀ acc, (keysP acc).Nodup → (keysP (movies.foldl chartStep acc)).Nodup := by
  induction movies with
  | nil => intro acc h; simpa using h
  | cons m rest ih =>
    intro acc h
    rw [List.foldl_cons]
    apply ih
    cases hcy : chartYear m with
    | none => rw [chartStep_none hcy]; exact h
    | some y => rw [chartStep_some hcy]; exact keysP_bump_nodup acc y h

theorem chartFold_sumSnd (movies : List Record) :
    ∀ acc, sumSnd (movies.foldl chartStep acc) =
      sumSnd acc + (movies.filterMap chartYear).length := by
  induction movies with
  | nil => intro acc; simp
  | cons m rest ih =>
    intro acc
    rw [List.foldl_cons]
    cases hcy : chartYear m with
    | none =>
      rw [chartStep_none hcy]
      rw [show (m :: rest).filterMap chartYear = rest.filterMap chartYear from by
        simp [List.filterMap_cons, hcy]]
      exact ih acc
    | some y =>
      rw [chartStep_some hcy]
      rw [show (m :: rest).filterMap chartYear = y :: rest.filterMap chartYear from by
        simp [List.filterMap_cons, hcy]]
      rw [ih (bump acc y), bump_sumSnd, List.length_cons]
      omega

theorem insertPair_perm (p : Int × Nat) (l : List (Int × Nat)) :
    List.Perm (insertPair p l) (p :: l) := by
  induction l with
  | nil => exact List.Perm.refl _
  | cons q t ih =>
    unfold insertPair
    by_cases h : p.1 ≤ q.1
    · rw [if_pos h]
    · rw [if_neg h]
      exact (ih.cons q).trans (List.Perm.swap p q t)

theorem sortByKey_perm (l : List (Int × Nat)) : List.Perm (sortByKey l) l := by
  induction l with
  | nil => exact List.Perm.refl _
  | cons p t ih =>
    have : sortByKey (p :: t) = insertPair p (sortByKey t) := rfl
    rw [this]
    exact (insertPair_perm p (sortByKey t)).trans (ih.cons p)

theorem pairwise_insertPair (p : Int × Nat) (l : List (Int × Nat))
    (h : l.Pairwise keyLe) : (insertPair p l).Pairwise keyLe := by
  induction l with
  | nil => simp [insertPair, keyLe]
  | cons q t ih =>
    rw [List.pairwise_cons] at h
    unfold insertPair
    by_cases hle : p.1 ≤ q.1
    · rw [if_pos hle]
      rw [List.pairwise_cons]
      constructor
      · intro z hz
        rcases List.mem_cons.mp hz with rfl | hz2
        · exact hle
        · exact le_trans hle (h.1 z hz2)
      · exact List.pairwise_cons.mpr h
    · rw [if_neg hle]
      rw [List.pairwise_cons]
      constructor
      · intro z hz
        rcases List.mem_cons.mp ((insertPair_perm p t).mem_iff.mp hz) with rfl | hz2
        · exact le_of_not_le hle
        · exact h.1 z hz2
      · exact ih h.2

theorem sortByKey_pairwise (l : List (Int × Nat)) :
    (sortByKey l).Pairwise keyLe := by
  induction l with
  | nil => simp [sortByKey]
  | cons p t ih =>
    have : sortByKey (p :: t) = insertPair p (sortByKey t) := rfl
    rw [this]
    exact pairwise_insertPair p (sortByKey t) ih

theorem pairwise_keyLt_of_le_nodup :
    ∀ l : List (Int × Nat), l.Pairwise keyLe → (keysP l).Nodup →
      l.Pairwise keyLt := by
  intro l
  induction l with
  | nil => intro _ _; exact List.Pairwise.nil
  | cons p t ih =>
    intro hle hnd
    have hnd2 : (p.1 :: keysP t).Nodup := by simpa [keysP] using hnd
    rw [List.nodup_cons] at hnd2
    rw [List.pairwise_cons] at hle ⊢
    refine ⟨?_, ih hle.2 (by simpa [keysP] using hnd2.2)⟩
    intro q hq
    have h1 : p.1 ≤ q.1 := hle.1 q hq
    have h2 : p.1 ≠ q.1 := fun he => hnd2.1 (he ▸ mem_keysP_of_mem hq)
    exact lt_of_le_of_ne h1 h2

/-- C2: the chart aggregation has strictly ascending year keys; a pair
`(y, c)` appears among the chart pairs exactly when some record's year
parses to `y` strictly between 1800 and 2100 and `c` is the number of such
records; a record whose year fails that test contributes to no pair (the
counts sum to the number of contributing records only); and the rendered
chart data is the pairs with the year printed, as in the determinism
example `[1999, 1999, 2001]`. -/
theorem chart_c2 (movies : List Record) :
    createChartData movies = (chartPairs movies).map (fun p => (intRepr p.1, p.2)) ∧
    (chartPairs movies).Pairwise keyLt ∧
    (∀ y c, ((y, c) ∈ chartPairs movies ↔
      (y ∈ movies.filterMap chartYear ∧ c = countOcc y (movies.filterMap chartYear)))) ∧
    (∀ y, (y ∈ movies.filterMap chartYear ↔ ∃ r ∈ movies, chartYear r = some y)) ∧
    sumSnd (chartPairs movies) = (movies.filterMap chartYear).length ∧
    createChartData exAgg = [(("1999").toList, 2), (("2001").toList, 1)] := by
  have hnd : (keysP (yearCountsList movies)).Nodup :=
    chartFold_keysNodup movies [] (by simp [keysP])
  have hperm := sortByKey_perm (yearCountsList movies)
  have hknd : (keysP (chartPairs movies)).Nodup := by
    unfold chartPairs keysP
    exact (hperm.map Prod.fst).nodup_iff.mpr hnd
  refine ⟨rfl, ?_, ?_, ?_, ?_, by decide⟩
  · exact pairwise_keyLt_of_le_nodup _ (sortByKey_pairwise _) hknd
  · intro y c
    rw [show ((y, c) ∈ chartPairs movies) = ((y, c) ∈ sortByKey (yearCountsList movies))
      from rfl]
    rw [hperm.mem_iff, mem_iff_lookupC _ hnd]
    rw [show yearCountsList movies = movies.foldl chartStep [] from rfl]
    rw [chartFold_lookupC movies [] y]
    rw [show keysP ([] : List (Int × Nat)) = [] from rfl]
    simp only [List.not_mem_nil, false_or, lookupC_nil, Option.getD_none, Nat.zero_add]
    by_cases hy : y ∈ movies.filterMap chartYear
    · rw [if_pos hy]
      constructor
      · intro h
        exact ⟨hy, (Option.some.inj h).symm⟩
      · rintro ⟨-, rfl⟩
        rfl
    · rw [if_neg hy]
      constructor
      · intro h
        cases h
      · rintro ⟨h, -⟩
        exact absurd h hy
  · intro y
    simp [List.mem_filterMap]
  · rw [show chartPairs movies = sortByKey (yearCountsList movies) from rfl]
    rw [show sumSnd (sortByKey (yearCountsList movies)) = sumSnd (yearCountsList movies)
      from by unfold sumSnd; exact (hperm.map Prod.snd).sum_eq]
    rw [show yearCountsList movies = movies.foldl chartStep [] from rfl]
    rw [chartFold_sumSnd movies []]
    simp [sumSnd]
